import Mathlib

/-!
Shallow embedding of the radparse parser-combinator core
(`src/either.ts`, `src/parser.ts`).

JavaScript strings are modelled as `List Char` (the `for (const char of s)`
loop iterates code points, which matches `List Char` traversal).  Diagnostic
message strings, which are never traversed character by character, are kept
as Lean `String`.
-/

/-- `Either<R, L> = Left<L> | Right<R>` from `src/either.ts`.  The payload of
`Left` is `left`, of `Right` is `right`; constructors `Either.left` /
`Either.right`. -/
inductive Either (R L : Type) : Type where
  | left (l : L)
  | right (r : R)
deriving DecidableEq, Repr

/-- `SourcePosition` from `src/parser.ts`. -/
structure SourcePosition where
  line : Nat
  column : Nat
  offset : Nat
deriving DecidableEq, Repr

/-- `ParserState` from `src/parser.ts`: remaining input plus position. -/
structure ParserState where
  input : List Char
  pos : SourcePosition
deriving DecidableEq, Repr

/-- `ParserError` from `src/parser.ts`. -/
structure ParserError where
  message : String
  expected : List String
  pos : SourcePosition
deriving DecidableEq, Repr

/-- `ParserResult<T> = Either<[T, ParserState], ParserError>`. -/
def ParserResult (T : Type) : Type := Either (T × ParserState) ParserError

instance (T : Type) [DecidableEq T] : DecidableEq (ParserResult T) := by
  unfold ParserResult; exact inferInstance

/-- `initialState` from `src/parser.ts`. -/
def initialState (input : List Char) : ParserState :=
  { input, pos := { line := 1, column := 1, offset := 0 } }

/-- One iteration of the `for (const char of consumed)` loop body of
`updatePosition`: on a newline, increment `line` and reset `column` to 1,
otherwise increment `column`; `offset` is always incremented. -/
def updatePosChar (p : SourcePosition) (c : Char) : SourcePosition :=
  if c = '\n' then
    { line := p.line + 1, column := 1, offset := p.offset + 1 }
  else
    { line := p.line, column := p.column + 1, offset := p.offset + 1 }

/-- `updatePosition` from `src/parser.ts`: folds the loop body over the
consumed text. -/
def updatePosition (pos : SourcePosition) (consumed : List Char) : SourcePosition :=
  consumed.foldl updatePosChar pos

/-- JavaScript `String.prototype.slice(start, end)`: negative indices count
from the end, indices are clamped to `[0, length]`. -/
def jsSlice (s : List Char) (start stop : Int) : List Char :=
  let len : Int := s.length
  let st := if start < 0 then max (len + start) 0 else min start len
  let en := if stop < 0 then max (len + stop) 0 else min stop len
  (s.take en.toNat).drop st.toNat

/-- JavaScript `s.slice(start)` (one-argument form): the end index defaults
to the length of the string. -/
def jsSlice1 (s : List Char) (start : Int) : List Char :=
  jsSlice s start s.length

/-- `updateState` from `src/parser.ts`: the consumed text is
`oldState.input.slice(0, oldState.input.length - newState.input.length)`;
the result keeps every field of `oldState` except `input` (the consumed
prefix removed) and `pos` (re-derived through `updatePosition`). -/
def updateState (oldState newState : ParserState) : ParserState :=
  let consumed := jsSlice oldState.input 0
    ((oldState.input.length : Int) - (newState.input.length : Int))
  { input := jsSlice1 oldState.input consumed.length
    pos := updatePosition oldState.pos consumed }

/-- `consumeString` from `src/parser.ts`; the optional second argument is an
`Option`.  `consumed ?? ""` is `consumed.getD []`, and `consumed?.length ?? 0`
is `0` when the argument is absent. -/
def consumeString (state : ParserState) (consumed : Option (List Char)) : ParserState :=
  let newPos := updatePosition state.pos (consumed.getD [])
  { input := jsSlice1 state.input (match consumed with
      | some c => (c.length : Int)
      | none => 0)
    pos := newPos }

/- ### Helper lemmas about `updatePosition` -/

lemma updatePosition_foldl_offset (c : List Char) :
    ∀ p : SourcePosition, (c.foldl updatePosChar p).offset = p.offset + c.length := by
  induction c with
  | nil => intro p; simp
  | cons ch t ih =>
      intro p
      rw [List.foldl_cons, ih]
      unfold updatePosChar
      split <;> simp <;> omega

lemma updatePosition_foldl_no_newline (c : List Char) :
    ∀ p : SourcePosition, '\n' ∉ c →
      (c.foldl updatePosChar p).line = p.line ∧
      (c.foldl updatePosChar p).column = p.column + c.length := by
  induction c with
  | nil => intro p _; simp
  | cons ch t ih =>
      intro p hmem
      have hch : ch ≠ '\n' := by
        intro h; exact hmem (h ▸ List.mem_cons_self ch t)
      have ht : '\n' ∉ t := fun h => hmem (List.mem_cons_of_mem ch h)
      rw [List.foldl_cons]
      have hup : updatePosChar p ch =
          { line := p.line, column := p.column + 1, offset := p.offset + 1 } := by
        unfold updatePosChar; rw [if_neg hch]
      rw [hup]
      have := ih { line := p.line, column := p.column + 1, offset := p.offset + 1 } ht
      simp only [List.length_cons]
      refine ⟨this.1, ?_⟩
      rw [this.2]
      show p.column + 1 + t.length = p.column + (t.length + 1)
      omega

lemma jsSlice1_ofNat (s : List Char) (n : Nat) :
    jsSlice1 s (n : Int) = s.drop n := by
  unfold jsSlice1 jsSlice
  simp only
  rw [if_neg (by omega), if_neg (by omega)]
  have h1 : (min (n : Int) (s.length : Int)).toNat = min n s.length := by omega
  have h2 : (min (s.length : Int) (s.length : Int)).toNat = s.length := by omega
  rw [h1, h2, List.take_length]
  rcases Nat.le_total n s.length with h | h
  · rw [Nat.min_eq_left h]
  · rw [Nat.min_eq_right h, List.drop_length, List.drop_eq_nil_of_le h]

/-- C1: For every position `p` and every consumed text `c`,
`updatePosition(p, c)` returns a position whose offset equals `p.offset`
plus the length of `c` — one increment per character, regardless of
character identity. -/
theorem updatePosition_offset_adds_length (p : SourcePosition) (c : List Char) :
    (updatePosition p c).offset = p.offset + c.length := by
  unfold updatePosition
  exact updatePosition_foldl_offset c p

/-- C8: newline-free consumed text leaves `line` unchanged and advances
`column` by its length; consumed text whose single newline is its last
character resets `column` to 1 and advances `line` by one. -/
theorem updatePosition_line_column (p : SourcePosition) (c : List Char) :
    ('\n' ∉ c →
      (updatePosition p c).line = p.line ∧
      (updatePosition p c).column = p.column + c.length) ∧
    (∀ c', c = c' ++ ['\n'] → '\n' ∉ c' →
      (updatePosition p c).column = 1 ∧
      (updatePosition p c).line = p.line + 1) := by
  constructor
  · intro h
    exact updatePosition_foldl_no_newline c p h
  · intro c' hc hc'
    subst hc
    unfold updatePosition
    rw [List.foldl_append]
    have hnl := updatePosition_foldl_no_newline c' p hc'
    simp only [List.foldl_cons, List.foldl_nil]
    have hup : updatePosChar (c'.foldl updatePosChar p) '\n' =
        { line := (c'.foldl updatePosChar p).line + 1, column := 1,
          offset := (c'.foldl updatePosChar p).offset + 1 } := by
      unfold updatePosChar; rw [if_pos rfl]
    rw [hup]
    exact ⟨rfl, by show (c'.foldl updatePosChar p).line + 1 = p.line + 1; rw [hnl.1]⟩

/-- C8 witness: concrete instances of both conjuncts. -/
theorem updatePosition_line_column_witness :
    ((updatePosition ⟨3, 5, 9⟩ ['a', 'b']).line = 3 ∧
     (updatePosition ⟨3, 5, 9⟩ ['a', 'b']).column = 7) ∧
    ((updatePosition ⟨3, 5, 9⟩ ['a', '\n']).column = 1 ∧
     (updatePosition ⟨3, 5, 9⟩ ['a', '\n']).line = 4) := by
  have h1 := (updatePosition_line_column ⟨3, 5, 9⟩ ['a', 'b']).1 (by decide)
  have h2 := (updatePosition_line_column ⟨3, 5, 9⟩ ['a', '\n']).2 ['a'] rfl (by decide)
  exact ⟨⟨h1.1, h1.2⟩, h2⟩

/-- C9: `consumeString` drops the consumed text's length off the input and
re-derives the position via `updatePosition`; with an absent or empty
consumed text the state is returned unchanged. -/
theorem consumeString_spec (s : ParserState) (c : List Char) :
    (consumeString s (some c)).input = s.input.drop c.length ∧
    (consumeString s (some c)).pos = updatePosition s.pos c ∧
    consumeString s none = s ∧
    consumeString s (some []) = s := by
  have h0 : jsSlice1 s.input (0 : Int) = s.input := by
    have h := jsSlice1_ofNat s.input 0
    simpa using h
  refine ⟨?_, rfl, ?_, ?_⟩
  · show jsSlice1 s.input (c.length : Int) = s.input.drop c.length
    exact jsSlice1_ofNat s.input c.length
  · show ParserState.mk (jsSlice1 s.input 0) (updatePosition s.pos []) = s
    rw [h0]
    rfl
  · show ParserState.mk (jsSlice1 s.input ((List.length ([] : List Char) : Nat) : Int))
        (updatePosition s.pos []) = s
    rw [show ((List.length ([] : List Char) : Nat) : Int) = (0 : Int) from rfl, h0]
    rfl

lemma jsSlice_zero_nonneg (s : List Char) (d : Int) (h0 : 0 ≤ d) (hle : d ≤ s.length) :
    jsSlice s 0 d = s.take d.toNat := by
  unfold jsSlice
  simp only
  rw [if_neg (by omega), if_neg (by omega)]
  have h1 : (min (0 : Int) (s.length : Int)).toNat = 0 := by omega
  have h2 : (min d (s.length : Int)).toNat = d.toNat := by omega
  rw [h1, h2, List.drop_zero]

lemma updateState_eq (oldState newState : ParserState) :
    updateState oldState newState =
      { input := jsSlice1 oldState.input
          ((jsSlice oldState.input 0
            ((oldState.input.length : Int) - (newState.input.length : Int))).length : Int)
        pos := updatePosition oldState.pos
          (jsSlice oldState.input 0
            ((oldState.input.length : Int) - (newState.input.length : Int))) } := rfl

/-- C2: when `newState.input` is a suffix of `oldState.input`, `updateState`
takes the leading prefix of `oldState.input` of length equal to the length
difference as the consumed text, returns `oldState.input` minus that prefix
(which is `newState.input`) as input, and re-derives the position from
`oldState.pos` and that prefix. -/
theorem updateState_suffix_spec (oldState newState : ParserState)
    (h : newState.input <:+ oldState.input) :
    (updateState oldState newState).input = newState.input ∧
    (updateState oldState newState).pos =
      updatePosition oldState.pos
        (oldState.input.take (oldState.input.length - newState.input.length)) ∧
    oldState.input.take (oldState.input.length - newState.input.length)
      ++ newState.input = oldState.input := by
  obtain ⟨t, ht⟩ := h
  have hlen : oldState.input.length = t.length + newState.input.length := by
    rw [← ht]; simp
  have hd : (oldState.input.length : Int) - (newState.input.length : Int)
      = (t.length : Int) := by
    rw [hlen]; push_cast; ring
  have hcons : jsSlice oldState.input 0
      ((oldState.input.length : Int) - (newState.input.length : Int)) = t := by
    rw [hd, jsSlice_zero_nonneg oldState.input (t.length : Int) (by omega)
      (by rw [hlen]; push_cast; omega)]
    rw [show ((t.length : Int)).toNat = t.length from rfl, ← ht, List.take_left]
  have htake : oldState.input.take (oldState.input.length - newState.input.length) = t := by
    rw [hlen, Nat.add_sub_cancel, ← ht, List.take_left]
  rw [updateState_eq, hcons, htake]
  refine ⟨?_, rfl, ht⟩
  show jsSlice1 oldState.input (t.length : Int) = newState.input
  rw [jsSlice1_ofNat, ← ht, List.drop_left]

/-- C2 witness: `updateState` on input `"abc"` whose inner parser left
`"c"` re-anchors to input `"c"` at column 3, offset 2. -/
theorem updateState_suffix_spec_witness :
    (updateState ⟨['a', 'b', 'c'], ⟨1, 1, 0⟩⟩ ⟨['c'], ⟨9, 9, 9⟩⟩).input = ['c'] ∧
    (updateState ⟨['a', 'b', 'c'], ⟨1, 1, 0⟩⟩ ⟨['c'], ⟨9, 9, 9⟩⟩).pos = ⟨1, 3, 2⟩ := by
  have h := updateState_suffix_spec ⟨['a', 'b', 'c'], ⟨1, 1, 0⟩⟩ ⟨['c'], ⟨9, 9, 9⟩⟩
    ⟨['a', 'b'], rfl⟩
  refine ⟨h.1, ?_⟩
  rw [h.2.1]
  decide

/- ### The Parser engine (`class Parser<Result>` in `src/parser.ts`) -/

/-- `Parser<Result>`: a state-transition function plus the `options.name`
diagnostic label and the private `errorMessage` field.  `errorMessage` is
initialised to `null` by the class and no code path ever assigns it, so every
parser the library builds carries `none` here; the combinators nevertheless
read it, and the embedding keeps those reads. -/
structure Parser (α : Type) where
  runP : ParserState → ParserResult α
  options : Option String := none
  errorMessage : Option String := none

/-- The repeated `if (Either.isLeft(result) && this.errorMessage)` override
pattern of `run` / `map` / `flatMap` / `bind`.  JavaScript truthiness makes
the empty string falsy, so an empty override is not substituted. -/
def substOverride (msg : Option String) (e : ParserError) : ParserError :=
  match msg with
  | some m => if m = "" then e else { message := m, expected := e.expected, pos := e.pos }
  | none => e

lemma substOverride_none (e : ParserError) : substOverride none e = e := rfl

lemma substOverride_keeps (msg : Option String) (e : ParserError) :
    (substOverride msg e).expected = e.expected ∧ (substOverride msg e).pos = e.pos := by
  cases msg with
  | none => exact ⟨rfl, rfl⟩
  | some m =>
      have h : substOverride (some m) e
          = if m = "" then e else { message := m, expected := e.expected, pos := e.pos } := rfl
      rw [h]
      by_cases hm : m = ""
      · rw [if_pos hm]; exact ⟨rfl, rfl⟩
      · rw [if_neg hm]; exact ⟨rfl, rfl⟩

/-- `static fail(message, expected = [])`. -/
def Parser.fail (message : String) (expected : List String) : Parser α :=
  { runP := fun state => .left (ParserError.mk message expected state.pos) }

/-- The `.error(message)` method: substitute `message` on a failing result,
keeping `expected` and `pos`; the success branch is returned as-is. -/
def Parser.error (p : Parser α) (message : String) : Parser α :=
  { runP := fun state =>
      match p.runP state with
      | .left e => .left (ParserError.mk message e.expected e.pos)
      | .right r => .right r
    options := p.options }

/-- The `.error2(onError)` method: like `.error` but the replacement message
is computed from the original `ParserError`. -/
def Parser.error2 (p : Parser α) (onError : ParserError → String) : Parser α :=
  { runP := fun state =>
      match p.runP state with
      | .left e => .left (ParserError.mk (onError e) e.expected e.pos)
      | .right r => .right r
    options := p.options }

/-- The `run(input)` method: run the transition function on `initialState`,
substituting the receiver's `errorMessage` override on failure.  (The
`console.log(this)` in that branch is logging only and has no value-level
effect.) -/
def Parser.run (p : Parser α) (input : List Char) : ParserResult α :=
  match p.runP (initialState input) with
  | .right r => .right r
  | .left e => .left (substOverride p.errorMessage e)

/-- `map(f)`. -/
def Parser.map (p : Parser α) (f : α → β) : Parser β :=
  { runP := fun state =>
      match p.runP state with
      | .left e => .left (substOverride p.errorMessage e)
      | .right (value, newState) => .right (f value, newState)
    options := p.options }

/-- `flatMap(f)`. -/
def Parser.flatMap (p : Parser α) (f : α → Parser β) : Parser β :=
  { runP := fun state =>
      match p.runP state with
      | .left e => .left (substOverride p.errorMessage e)
      | .right (value, newState) => (f value).runP newState
    options := p.options }

/-- `static pure`: always succeeds with `a`, consuming nothing. -/
def Parser.pure (a : α) : Parser α :=
  { runP := fun input => .right (a, input) }

/- ### Characterisation lemmas for the transition functions -/

lemma run_eq_right (p : Parser α) (input : List Char) (r : α × ParserState)
    (hr : p.runP (initialState input) = .right r) : p.run input = .right r := by
  unfold Parser.run
  rw [hr]

lemma run_eq_left (p : Parser α) (input : List Char) (e : ParserError)
    (hl : p.runP (initialState input) = .left e) :
    p.run input = .left (substOverride p.errorMessage e) := by
  unfold Parser.run
  rw [hl]

lemma flatMap_errorMessage (p : Parser α) (f : α → Parser β) :
    (p.flatMap f).errorMessage = none := rfl

/-- C3: wrapping a parser that fails with error `e` in `.error(m)` yields a
failure whose message is `m` and whose `expected` and `pos` are exactly
`e`'s. -/
theorem error_override_replaces_message (p : Parser α) (m : String)
    (input : List Char) (e : ParserError) :
    p.run input = .left e →
    (p.error m).run input = .left (ParserError.mk m e.expected e.pos) := by
  intro h
  cases hr : p.runP (initialState input) with
  | right r =>
      rw [run_eq_right p input r hr] at h
      exact Either.noConfusion h
  | left e' =>
      rw [run_eq_left p input e' hr] at h
      injection h with he
      have hexp : e.expected = e'.expected := by
        rw [← he]; exact (substOverride_keeps p.errorMessage e').1
      have hpos : e.pos = e'.pos := by
        rw [← he]; exact (substOverride_keeps p.errorMessage e').2
      have hrun : (p.error m).runP (initialState input)
          = .left (ParserError.mk m e'.expected e'.pos) := by
        simp only [Parser.error]
        rw [hr]
      rw [run_eq_left (p.error m) input _ hrun]
      rw [show (p.error m).errorMessage = none from rfl, substOverride_none]
      rw [hexp, hpos]

/-- C3 witness: a failing primitive wrapped in `.error "custom"`. -/
theorem error_override_replaces_message_witness :
    ((Parser.fail "boom" ["x"] : Parser Nat).error "custom").run ['a']
      = .left (ParserError.mk "custom" ["x"] ⟨1, 1, 0⟩) := by
  have h : (Parser.fail "boom" ["x"] : Parser Nat).run ['a']
      = .left (ParserError.mk "boom" ["x"] ⟨1, 1, 0⟩) := rfl
  exact error_override_replaces_message _ "custom" ['a'] _ h

/-- C10: on a state where `p` succeeds, `.error` and `.error2` wrappers
return exactly `p`'s value and resulting state. -/
theorem error_wrappers_leave_success_unchanged (p : Parser α) (m : String)
    (fn : ParserError → String) (s : ParserState) (v : α) (s' : ParserState)
    (h : p.runP s = .right (v, s')) :
    (p.error m).runP s = .right (v, s') ∧ (p.error2 fn).runP s = .right (v, s') := by
  constructor
  · simp only [Parser.error]
    rw [h]
  · simp only [Parser.error2]
    rw [h]

/-- C10 witness. -/
theorem error_wrappers_leave_success_unchanged_witness :
    ((Parser.pure (5 : Nat)).error "m").runP (initialState [])
      = .right (5, initialState []) ∧
    ((Parser.pure (5 : Nat)).error2 (fun e => e.message)).runP (initialState [])
      = .right (5, initialState []) :=
  error_wrappers_leave_success_unchanged (Parser.pure 5) "m" (fun e => e.message)
    (initialState []) 5 (initialState []) rfl

/-- C4: if `A` fails, `A.flatMap(f).run(input)` fails with `A`'s original
error (subject to the override substitution) and the continuation is never
consulted: the result is the same for any two continuations. -/
theorem flatMap_short_circuit (A : Parser α) (f g : α → Parser β)
    (input : List Char) (e : ParserError)
    (h : A.runP (initialState input) = .left e) :
    (A.flatMap f).run input = .left (substOverride A.errorMessage e) ∧
    (A.flatMap f).run input = (A.flatMap g).run input := by
  have hf : (A.flatMap f).runP (initialState input)
      = .left (substOverride A.errorMessage e) := by
    simp only [Parser.flatMap]
    rw [h]
  have hg : (A.flatMap g).runP (initialState input)
      = .left (substOverride A.errorMessage e) := by
    simp only [Parser.flatMap]
    rw [h]
  refine ⟨?_, ?_⟩
  · rw [run_eq_left (A.flatMap f) input _ hf, flatMap_errorMessage, substOverride_none]
  · rw [run_eq_left (A.flatMap f) input _ hf, run_eq_left (A.flatMap g) input _ hg,
      flatMap_errorMessage A f, flatMap_errorMessage A g]

/-- C4 witness: a failing primitive followed by two different
continuations. -/
theorem flatMap_short_circuit_witness :
    ((Parser.fail "boom" [] : Parser Nat).flatMap (fun n => Parser.pure (n + 1))).run ['a']
      = .left (ParserError.mk "boom" [] ⟨1, 1, 0⟩) ∧
    ((Parser.fail "boom" [] : Parser Nat).flatMap (fun n => Parser.pure (n + 1))).run ['a']
      = ((Parser.fail "boom" [] : Parser Nat).flatMap (fun _ => Parser.pure 0)).run ['a'] := by
  have h := flatMap_short_circuit (Parser.fail "boom" [] : Parser Nat)
    (fun n => Parser.pure (n + 1)) (fun _ => Parser.pure 0) ['a']
    (ParserError.mk "boom" [] ⟨1, 1, 0⟩) rfl
  exact h

/-- `zip(parserB)`: run this parser, then `parserB` against the resulting
state; pair the values.  The source passes no options and performs no
override check here. -/
def Parser.zip (p : Parser α) (q : Parser β) : Parser (α × β) :=
  { runP := fun state =>
      match p.runP state with
      | .right (a, restA) =>
          match q.runP restA with
          | .right (b, restB) => .right ((a, b), restB)
          | .left e => .left e
      | .left e => .left e }

lemma zip_runP_right (p : Parser α) (q : Parser β) (s s1 : ParserState) (a : α)
    (h : p.runP s = .right (a, s1)) :
    (p.zip q).runP s =
      (match q.runP s1 with
        | .right (b, restB) => Either.right ((a, b), restB)
        | .left e => Either.left e) := by
  simp only [Parser.zip]
  rw [h]

lemma zip_runP_left (p : Parser α) (q : Parser β) (s : ParserState) (e : ParserError)
    (h : p.runP s = .left e) : (p.zip q).runP s = .left e := by
  simp only [Parser.zip]
  rw [h]

/-- C7: `A.zip(B)` runs `A`, then `B` against `A`'s resulting state; both
successes pair the values with `B`'s final state; a failure of `A`
propagates unchanged without `B` ever running (the result is independent of
`B`); a failure of `B` after a success of `A` propagates `B`'s failure. -/
theorem zip_spec (p : Parser α) (q q' : Parser β) (s s1 s2 : ParserState)
    (a : α) (b : β) (e : ParserError) :
    (p.runP s = .right (a, s1) → q.runP s1 = .right (b, s2) →
      (p.zip q).runP s = .right ((a, b), s2)) ∧
    (p.runP s = .left e →
      (p.zip q).runP s = .left e ∧ (p.zip q).runP s = (p.zip q').runP s) ∧
    (p.runP s = .right (a, s1) → q.runP s1 = .left e →
      (p.zip q).runP s = .left e) := by
  refine ⟨?_, ?_, ?_⟩
  · intro h1 h2
    rw [zip_runP_right p q s s1 a h1, h2]
  · intro h1
    exact ⟨zip_runP_left p q s e h1,
      by rw [zip_runP_left p q s e h1, zip_runP_left p q' s e h1]⟩
  · intro h1 h2
    rw [zip_runP_right p q s s1 a h1, h2]

/-- C7 witness: a success-success pairing and a first-parser failure. -/
theorem zip_spec_witness :
    ((Parser.pure (1 : Nat)).zip (Parser.pure (2 : Nat))).runP (initialState ['x'])
      = .right ((1, 2), initialState ['x']) ∧
    ((Parser.fail "e" [] : Parser Nat).zip (Parser.pure (2 : Nat))).runP (initialState ['x'])
      = .left (ParserError.mk "e" [] ⟨1, 1, 0⟩) := by
  refine ⟨(zip_spec (Parser.pure 1) (Parser.pure 2) (Parser.pure 2) (initialState ['x'])
      (initialState ['x']) (initialState ['x']) 1 2 (ParserError.mk "e" [] ⟨1, 1, 0⟩)).1
      rfl rfl, ?_⟩
  exact ((zip_spec (Parser.fail "e" []) (Parser.pure 2) (Parser.pure 2) (initialState ['x'])
      (initialState ['x']) (initialState ['x']) 1 2 (ParserError.mk "e" [] ⟨1, 1, 0⟩)).2.1
      rfl).1

/- ### `bind(key, otherOrFn)` over record values -/

/-- The record values `bind` accumulates: a JavaScript object viewed as a
partial map from field names to values. -/
def Rec (V : Type) : Type := String → Option V

/-- The JS spread `{...value, [k]: b}`: every field of `value`, with `k`
(re)bound to `b`. -/
def spreadSet (value : Rec V) (k : String) (b : V) : Rec V :=
  fun k' => if k' = k then some b else value k'

/-- `bind(k, other)`: run this parser for the record so far, pick the next
parser (`other` itself, or `other(value)` when it is a function — the
`other instanceof Parser` test), run it on the resulting state, and merge
its value under `k`. -/
def Parser.bind (p : Parser (Rec V)) (k : String)
    (other : Parser V ⊕ (Rec V → Parser V)) : Parser (Rec V) :=
  { runP := fun state =>
      match p.runP state with
      | .left e => .left (substOverride p.errorMessage e)
      | .right (value, newState) =>
          match (match other with | Sum.inl q => q | Sum.inr f => f value).runP newState with
          | .right (b, finalState) => .right (spreadSet value k b, finalState)
          | .left e => .left e
    options := p.options }

lemma bind_runP_right_inl (p : Parser (Rec V)) (k : String) (q : Parser V)
    (s s' : ParserState) (r : Rec V) (h : p.runP s = .right (r, s')) :
    (p.bind k (Sum.inl q)).runP s =
      (match q.runP s' with
        | .right (b, finalState) => Either.right (spreadSet r k b, finalState)
        | .left e => Either.left e) := by
  simp only [Parser.bind]
  rw [h]

lemma bind_runP_right_inr (p : Parser (Rec V)) (k : String) (f : Rec V → Parser V)
    (s s' : ParserState) (r : Rec V) (h : p.runP s = .right (r, s')) :
    (p.bind k (Sum.inr f)).runP s =
      (match (f r).runP s' with
        | .right (b, finalState) => Either.right (spreadSet r k b, finalState)
        | .left e => Either.left e) := by
  simp only [Parser.bind]
  rw [h]

/-- C6: `bind` runs the record parser, then the second parser (fixed, or
computed from the record) on the resulting state, and on both successes
returns the record extended at `k` with the second value, paired with the
second parser's final state; chaining `bind "x"` and `bind "y"` yields a
record holding both fields. -/
theorem bind_extends_record (V : Type) (p : Parser (Rec V)) (k : String)
    (q : Parser V) (f : Rec V → Parser V) (s s' s'' : ParserState)
    (r : Rec V) (b : V) :
    (p.runP s = .right (r, s') → q.runP s' = .right (b, s'') →
      (p.bind k (Sum.inl q)).runP s = .right (spreadSet r k b, s'')) ∧
    (p.runP s = .right (r, s') → (f r).runP s' = .right (b, s'') →
      (p.bind k (Sum.inr f)).runP s = .right (spreadSet r k b, s'')) ∧
    (∀ (px py : Parser V) (vx vy : V) (s1 s2 s3 : ParserState),
      p.runP s = .right (r, s1) → px.runP s1 = .right (vx, s2) →
      py.runP s2 = .right (vy, s3) →
      ((p.bind "x" (Sum.inl px)).bind "y" (Sum.inl py)).runP s
        = .right (spreadSet (spreadSet r "x" vx) "y" vy, s3) ∧
      spreadSet (spreadSet r "x" vx) "y" vy "x" = some vx ∧
      spreadSet (spreadSet r "x" vx) "y" vy "y" = some vy) := by
  refine ⟨?_, ?_, ?_⟩
  · intro h1 h2
    rw [bind_runP_right_inl p k q s s' r h1, h2]
  · intro h1 h2
    rw [bind_runP_right_inr p k f s s' r h1, h2]
  · intro px py vx vy s1 s2 s3 h1 h2 h3
    have hx : (p.bind "x" (Sum.inl px)).runP s = .right (spreadSet r "x" vx, s2) := by
      rw [bind_runP_right_inl p "x" px s s1 r h1, h2]
    have hy : ((p.bind "x" (Sum.inl px)).bind "y" (Sum.inl py)).runP s
        = .right (spreadSet (spreadSet r "x" vx) "y" vy, s3) := by
      rw [bind_runP_right_inl (p.bind "x" (Sum.inl px)) "y" py s s2
        (spreadSet r "x" vx) hx, h3]
    refine ⟨hy, ?_, ?_⟩
    · show (if "x" = "y" then some vy
        else if "x" = "x" then some vx else r "x") = some vx
      rw [if_neg (by decide), if_pos rfl]
    · show (if "y" = "y" then some vy
        else if "y" = "x" then some vx else r "y") = some vy
      rw [if_pos rfl]

/-- C6 witness: `bind "x"` then `bind "y"` over a base empty record. -/
theorem bind_extends_record_witness :
    (((Parser.pure (fun _ => none : Rec Nat)).bind "x"
        (Sum.inl (Parser.pure 1))).bind "y"
        (Sum.inl (Parser.pure 2))).runP (initialState [])
      = .right (spreadSet (spreadSet (fun _ => none) "x" 1) "y" 2, initialState []) ∧
    spreadSet (spreadSet (fun _ => none : Rec Nat) "x" 1) "y" 2 "x" = some 1 ∧
    spreadSet (spreadSet (fun _ => none : Rec Nat) "x" 1) "y" 2 "y" = some 2 := by
  exact (bind_extends_record Nat (Parser.pure (fun _ => none)) "k"
      (Parser.pure 0) (fun _ => Parser.pure 0) (initialState []) (initialState [])
      (initialState []) (fun _ => none) 0).2.2
      (Parser.pure 1) (Parser.pure 2) 1 2 (initialState []) (initialState [])
      (initialState []) rfl rfl rfl

/- ### Sequential composition (`static gen`) -/

/-- The iterator driven by `Parser.gen`, restricted to its stated
precondition that every yielded item is a Parser (yielding anything else
hits the `throw new Error("Expected a Parser")` branch, a programming
error outside `Result`).  `doneP` is a finished iterator whose final value
is itself a Parser, `doneV` one whose final value is a plain value, and
`yieldP` yields a parser and continues with the value fed back in. -/
inductive GenM (α : Type) : Type 1 where
  | doneP (p : Parser α)
  | doneV (v : α)
  | yieldP {β : Type} (p : Parser β) (k : β → GenM α)

/-- The recursive `run` driver inside `static gen`: a finished iterator
returns its final Parser as-is or wraps the plain final value in `pure`; a
yielded parser is sequenced via `flatMap`, feeding the result back in. -/
def Parser.gen : GenM α → Parser α
  | .doneP p => p
  | .doneV v => Parser.pure v
  | .yieldP p k => p.flatMap fun r => Parser.gen (k r)

/-- C5: `gen` runs the yielded parsers in order, feeding each success value
back via `flatMap` (so a success of a yielded parser continues the
sequence on its resulting state and a failure short-circuits the whole
sequence), and on completion returns a Parser final value as-is, wrapping a
plain final value with `pure`. -/
theorem gen_spec (α β : Type) (q : Parser α) (v0 : α) (p : Parser β)
    (k : β → GenM α) (s s' : ParserState) (b : β) (e : ParserError) :
    Parser.gen (GenM.doneP q) = q ∧
    Parser.gen (GenM.doneV v0) = Parser.pure v0 ∧
    Parser.gen (GenM.yieldP p k) = p.flatMap (fun r => Parser.gen (k r)) ∧
    (p.runP s = .right (b, s') →
      (Parser.gen (GenM.yieldP p k)).runP s = (Parser.gen (k b)).runP s') ∧
    (p.errorMessage = none → p.runP s = .left e →
      (Parser.gen (GenM.yieldP p k)).runP s = .left e) := by
  refine ⟨rfl, rfl, rfl, ?_, ?_⟩
  · intro h
    show (p.flatMap fun r => Parser.gen (k r)).runP s = _
    simp only [Parser.flatMap]
    rw [h]
  · intro hm h
    show (p.flatMap fun r => Parser.gen (k r)).runP s = _
    simp only [Parser.flatMap]
    rw [h, hm]
    rfl

/-- C5 witness: a two-step sequence whose second step depends on the first
value, finishing with a plain value wrapped by `pure`. -/
theorem gen_spec_witness :
    (Parser.gen (GenM.yieldP (Parser.pure (1 : Nat))
        (fun n => GenM.doneV (n + 1)))).runP (initialState ['a'])
      = .right (2, initialState ['a']) := by
  have h := (gen_spec Nat Nat (Parser.pure 0) 0 (Parser.pure 1)
      (fun n => GenM.doneV (n + 1)) (initialState ['a']) (initialState ['a']) 1
      (ParserError.mk "" [] ⟨1, 1, 0⟩)).2.2.2.1 rfl
  rw [h]
  rfl
